import Mathlib

/-!
Shallow embedding of `pkg/services/ngalert/notifier/redis_peer.go`:
the Redis-backed cluster peer of the alert notifier (membership query,
position cache, delta broadcast channels, full-state sync loops and the
settle barrier), together with theorems about its behaviour.

Conventions of the embedding:
* wall-clock instants are integers counting nanoseconds since the epoch
  (Go `time.Time` comparisons are nanosecond-precise);
* byte strings that the peer treats as opaque (`Part.Data`) are `List Nat`;
* a Redis call that may fail is an `Option`: `none` models the error
  branch of the Go code;
* a Go `panic` is modelled by an `Option`-valued function returning `none`.
-/

namespace RedisPeer

/-! ### Constants from the source -/

/-- `fullState = "full_state"`. -/
def fullState : String := "full_state"

/-- `update = "update"`, the message type of delta broadcasts. -/
def update : String := "update"

/-- Nanoseconds in one second. -/
def nsPerSecond : Int := 1000000000

/-- `heartbeatTimeout = time.Minute`, in nanoseconds. -/
def heartbeatTimeoutNs : Int := 60 * nsPerSecond

/-- `positionValidFor = time.Minute`, in nanoseconds. -/
def positionValidForNs : Int := 60 * nsPerSecond

/-- `withPrefix`: prepends the peer's configured key pfx to a name. -/
def withPfx (pfx s : String) : String := pfx ++ s

/-! ### strconv.ParseInt(s, 10, 64) -/

/-- Accumulate decimal digits; `none` on any non-digit character. -/
def parseDigitsAux : List Char → Nat → Option Nat
  | [], acc => some acc
  | c :: cs, acc =>
    if c.isDigit then parseDigitsAux cs (acc * 10 + (c.toNat - 48)) else none

/-- Model of Go `strconv.ParseInt(s, 10, 64)`: an optional sign followed by
at least one decimal digit, with the value required to fit in a signed
64-bit integer; `none` models the error return. -/
def parseInt64 (s : String) : Option Int :=
  let split : Int × List Char :=
    match s.data with
    | '+' :: rest => (1, rest)
    | '-' :: rest => (-1, rest)
    | cs => (1, cs)
  if split.2.isEmpty then none
  else
    match parseDigitsAux split.2 0 with
    | none => none
    | some n =>
      let v : Int := split.1 * (n : Int)
      if v < -(2 ^ 63) ∨ 2 ^ 63 - 1 < v then none else some v

/-! ### Lexicographic string order (Go compares strings bytewise; for valid
UTF-8 the bytewise order coincides with the codepoint order used here) -/

/-- Lexicographic comparison of char lists by codepoint. -/
def charListLe : List Char → List Char → Bool
  | [], _ => true
  | _ :: _, [] => false
  | a :: as, b :: bs =>
    if a.toNat < b.toNat then true
    else if b.toNat < a.toNat then false
    else charListLe as bs

/-- Lexicographic `≤` on strings, as used by `sort.Strings`. -/
def stringLe (s t : String) : Bool := charListLe s.data t.data

/-- `stringLe` as a relation, for the sorting lemmas. -/
def strLeProp : String → String → Prop := fun a b => stringLe a b = true

instance : DecidableRel strLeProp := fun a b => instDecidableEqBool (stringLe a b) true

/-! ### Members() -/

/-- The filtering loop of `Members()` over the SCAN keys zipped with the
MGET values, in SCAN order: an absent value is skipped, a present value is
parsed as decimal seconds (`none` result models the `panic(err)` on a parse
failure), and a peer is kept unless its heartbeat instant is before
`now − heartbeatTimeout`. -/
def collectPeers (nowNs : Int) : List (String × Option String) → Option (List String)
  | [] => some []
  | (_, none) :: rest => collectPeers nowNs rest
  | (peer, some v) :: rest =>
    match parseInt64 v with
    | none => none
    | some ts =>
      if ts * nsPerSecond < nowNs - heartbeatTimeoutNs then
        collectPeers nowNs rest
      else
        (collectPeers nowNs rest).map (fun l => peer :: l)

/-- `Members()`. `scanResult = none` models a SCAN error (early return of
the empty list); `vals` are the MGET values, positional with the keys.
The surviving keys are sorted with `sort.Strings`, i.e. lexicographically;
the overall `none` result models the panic on a malformed timestamp. -/
def Members (scanResult : Option (List String)) (vals : List (Option String))
    (nowNs : Int) : Option (List String) :=
  match scanResult with
  | none => some []
  | some keys =>
    if keys.length = 0 then some []
    else (collectPeers nowNs (keys.zip vals)).map (List.insertionSort strLeProp)

/-- Specification-side liveness test for one MGET value: present, parseable,
and not earlier than `now − heartbeatTimeout`. -/
def liveValue (nowNs : Int) : Option String → Bool
  | none => false
  | some v =>
    match parseInt64 v with
    | none => false
    | some ts => decide (nowNs - heartbeatTimeoutNs ≤ ts * nsPerSecond)

/-- Specification-side set of surviving keys: exactly the scanned keys whose
paired value is live. -/
def liveKeys (nowNs : Int) (keys : List String) (vals : List (Option String)) :
    List String :=
  ((keys.zip vals).filter (fun kv => liveValue nowNs kv.2)).map Prod.fst

/-! ### Position() -/

/-- The position cache carried inside the peer: `position` and
`positionFetchedAt` (nanoseconds). -/
structure PosState where
  position : Nat
  positionFetchedAt : Int
deriving DecidableEq

/-- The linear scan of `Position()`: first index at which the peer's own
name occurs in the members list. -/
def positionScan (name : String) : List String → Nat → Option Nat
  | [], _ => none
  | peer :: rest, i => if peer = name then some i else positionScan name rest (i + 1)

/-- `Position()`: given the members list, the cached state and the current
instant, returns the reported position and the new cache state. The first
branch mirrors `len(members) == 0 && p.positionFetchedAt.After(now - positionValidFor)`. -/
def Position (name : String) (members : List String) (st : PosState)
    (nowNs : Int) : Nat × PosState :=
  if members.length = 0 ∧ nowNs - positionValidForNs < st.positionFetchedAt then
    (st.position, st)
  else
    match positionScan name members 0 with
    | some i => (i, ⟨i, nowNs⟩)
    | none => (0, st)

/-! ### Delta channel: AddState / Broadcast / receiveLoop -/

/-- A delta envelope `clusterpb.Part`: `{Key, Data}`. -/
structure Part where
  key : String
  data : List Nat
deriving DecidableEq

/-- The `RedisChannel` handle returned by `AddState`. -/
structure RedisChannel where
  channel : String
  msgType : String
deriving DecidableEq

/-- `AddState(key, state)` returns `&RedisChannel{channel: p.withPrefix(key), msgType: update}`
(the state itself is stored in the registry under the raw `key`). -/
def addStateChannel (pfx key : String) : RedisChannel :=
  { channel := withPfx pfx key, msgType := update }

/-- `Broadcast(b)` marshals `&clusterpb.Part{Key: c.channel, Data: b}`. -/
def broadcastEnvelope (c : RedisChannel) (b : List Nat) : Part :=
  { key := c.channel, data := b }

/-- The registry lookup `p.states[k]` over an association-list model of the
registry (insertion order; Go map lookup is order-independent for the keys
we use, which are distinct). -/
def lookupState {α : Type} (states : List (String × α)) (k : String) : Option α :=
  match states.find? (fun kv => kv.1 == k) with
  | some kv => some kv.2
  | none => none

/-- One delivery observed by the per-state delta receive loop: either a
receive error (network or otherwise) or a message with its payload length
and its decoded envelope (`none` = `proto.Unmarshal` failure). -/
inductive DeltaMsg
  | recvError
  | msg (payloadLen : Nat) (decoded : Option Part)

/-- Observable effects of one iteration of the delta receive loop. -/
inductive DeltaEvent
  | incReceived (msgType : String)
  | incReceivedSize (msgType : String) (n : Nat)
  | mergeAttempt (key : String) (data : List Nat) (ok : Bool)
deriving DecidableEq

/-- One iteration of `receiveLoop`: on a receive error nothing is recorded;
on a delivered message both `update` counters are incremented first, then
the envelope is decoded, the state is looked up by the envelope key, and
its `Merge` is attempted (logged and dropped on error). `lookup k = some f`
models a registered state whose merge of `d` succeeds iff `f d = true`. -/
def deltaStep (lookup : String → Option (List Nat → Bool)) : DeltaMsg → List DeltaEvent
  | DeltaMsg.recvError => []
  | DeltaMsg.msg len dec =>
    DeltaEvent.incReceived update :: DeltaEvent.incReceivedSize update len ::
    match dec with
    | none => []
    | some part =>
      match lookup part.key with
      | none => []
      | some mf => [DeltaEvent.mergeAttempt part.key part.data (mf part.data)]

/-! ### LocalState() -/

/-- Result of one `state.MarshalBinary()` call: the returned bytes together
with whether the call succeeded (`ok = false` models a non-nil error, which
the source only logs). -/
structure MarshalRes where
  bytes : List Nat
  ok : Bool
deriving DecidableEq

/-- The parts of the full-state envelope built by `LocalState()`: one part
per registry entry, appended whether or not `MarshalBinary` errored. -/
def localStateParts (reg : List (String × MarshalRes)) : List Part :=
  reg.map (fun kv => { key := kv.1, data := kv.2.bytes })

/-! ### Full-state receive loop -/

/-- The per-message part loop of `fullStateSyncReceiveLoop`, returning the
trace of merge calls (key, data) in order together with an abort flag: an
unknown key is skipped, a successful merge continues, and a failing merge
returns early, dropping all remaining parts of this message. -/
def processParts (lookup : String → Option (List Nat → Bool)) :
    List Part → List (String × List Nat) × Bool
  | [] => ([], false)
  | part :: rest =>
    match lookup part.key with
    | none => processParts lookup rest
    | some mf =>
      if mf part.data then
        ((part.key, part.data) :: (processParts lookup rest).1,
          (processParts lookup rest).2)
      else ([(part.key, part.data)], true)

/-- The outer `fullStateSyncReceiveLoop` over a sequence of decoded
messages (`none` = unmarshal failure, which drops that one message):
the concatenated trace of merge calls. -/
def fullStateReceive (lookup : String → Option (List Nat → Bool)) :
    List (Option (List Part)) → List (String × List Nat)
  | [] => []
  | none :: rest => fullStateReceive lookup rest
  | some parts :: rest => (processParts lookup parts).1 ++ fullStateReceive lookup rest

/-! ### Full-state request receive loop -/

/-- One delivery observed by `fullStateReqReceiveLoop`: a receive error or
a message whose payload is the requesting peer's name. -/
inductive ReqMsg
  | recvError
  | msg (payload : String)

/-- `fullStateReqReceiveLoop` over a sequence of deliveries: the number of
`fullStateSyncPublish()` calls it triggers. A message whose payload equals
the peer's own name is ignored; any other successfully received message
triggers exactly one publish. -/
def fullStateReqReceive (self : String) : List ReqMsg → Nat
  | [] => 0
  | ReqMsg.recvError :: rest => fullStateReqReceive self rest
  | ReqMsg.msg payload :: rest =>
    (if payload = self then 0 else 1) + fullStateReqReceive self rest

/-- Specification-side test: a successfully received full-state request
coming from some other peer (the ones that must trigger a publish). -/
def isForeignReq (self : String) : ReqMsg → Bool
  | ReqMsg.recvError => false
  | ReqMsg.msg payload => decide (payload ≠ self)

/-! ### Settle() -/

/-- Externally visible actions of `Settle`. -/
inductive SettleEvent
  | requestFullState
  | closeReady
deriving DecidableEq

/-- `Settle(ctx, interval)` as a function of the successive values of
`len(p.Members())` it observes, one per poll; the observation list running
out models `ctx.Done()` winning the select (close the gate, no request).
`nPeers` is the previous observation and `nOkay` the consecutive-unchanged
counter; when `nOkay ≥ 3` (NumOkayRequired) the loop breaks, emits a
full-state request and closes the readiness gate. -/
def settleLoop (obs : List Nat) (nPeers nOkay : Nat) : List SettleEvent :=
  match obs with
  | [] => [SettleEvent.closeReady]
  | n :: rest =>
    if 3 ≤ nOkay then [SettleEvent.requestFullState, SettleEvent.closeReady]
    else settleLoop rest n (if n = nPeers then nOkay + 1 else 0)

/-- The value of the consecutive-unchanged counter after `i` polls, under
the update rule of `Settle`: incremented when the observed member count
equals the previous observation, reset to zero otherwise. -/
def okayAt (obs : List Nat) (nPeers nOkay : Nat) : Nat → Nat
  | 0 => nOkay
  | i + 1 =>
    match obs with
    | [] => nOkay
    | n :: rest => okayAt rest n (if n = nPeers then nOkay + 1 else 0) i

/-! ## Helper lemmas -/

theorem charListLe_total : ∀ as bs : List Char, charListLe as bs = true ∨ charListLe bs as = true
  | [], bs => Or.inl rfl
  | a :: as, [] => Or.inr rfl
  | a :: as, b :: bs => by
    by_cases hab : a.toNat < b.toNat
    · left; simp [charListLe, hab]
    · by_cases hba : b.toNat < a.toNat
      · right; simp [charListLe, hba]
      · rcases charListLe_total as bs with h | h
        · left; simpa [charListLe, hab, hba] using h
        · right; simpa [charListLe, hab, hba] using h

theorem charListLe_trans : ∀ as bs cs : List Char,
    charListLe as bs = true → charListLe bs cs = true → charListLe as cs = true
  | [], _, _, _, _ => rfl
  | a :: as, [], cs, h, _ => by simp [charListLe] at h
  | a :: as, b :: bs, [], _, h => by simp [charListLe] at h
  | a :: as, b :: bs, c :: cs, h₁, h₂ => by
    simp only [charListLe] at h₁ h₂ ⊢
    by_cases hab : a.toNat < b.toNat
    · by_cases hbc : b.toNat < c.toNat
      · have hac : a.toNat < c.toNat := by omega
        simp [hac]
      · by_cases hcb : c.toNat < b.toNat
        · simp [hbc, hcb] at h₂
        · have hac : a.toNat < c.toNat := by omega
          simp [hac]
    · by_cases hba : b.toNat < a.toNat
      · simp [hab, hba] at h₁
      · simp only [if_neg hab, if_neg hba] at h₁
        by_cases hbc : b.toNat < c.toNat
        · have hac : a.toNat < c.toNat := by omega
          simp [hac]
        · by_cases hcb : c.toNat < b.toNat
          · simp [hbc, hcb] at h₂
          · simp only [if_neg hbc, if_neg hcb] at h₂
            have hac : ¬a.toNat < c.toNat := by omega
            have hca : ¬c.toNat < a.toNat := by omega
            simp only [if_neg hac, if_neg hca]
            exact charListLe_trans as bs cs h₁ h₂

instance : IsTotal String strLeProp :=
  ⟨fun a b => charListLe_total a.data b.data⟩

instance : IsTrans String strLeProp :=
  ⟨fun a b c => charListLe_trans a.data b.data c.data⟩

theorem collectPeers_eq_live (nowNs : Int) :
    ∀ pairs : List (String × Option String),
      (∀ kv ∈ pairs, ∀ s : String, kv.2 = some s → (parseInt64 s).isSome) →
      collectPeers nowNs pairs =
        some ((pairs.filter (fun kv => liveValue nowNs kv.2)).map Prod.fst)
  | [], _ => rfl
  | (peer, none) :: rest, h => by
    have ih := collectPeers_eq_live nowNs rest
      (fun kv hkv => h kv (List.mem_cons_of_mem _ hkv))
    simp [collectPeers, ih, List.filter_cons, liveValue]
  | (peer, some v) :: rest, h => by
    have ih := collectPeers_eq_live nowNs rest
      (fun kv hkv => h kv (List.mem_cons_of_mem _ hkv))
    have hv := h (peer, some v) (List.mem_cons_self _ _) v rfl
    obtain ⟨ts, hts⟩ := Option.isSome_iff_exists.mp hv
    by_cases hskip : ts * nsPerSecond < nowNs - heartbeatTimeoutNs
    · have hlive : liveValue nowNs (some v) = false := by
        simp only [liveValue, hts]
        simpa using by omega
      simp [collectPeers, hts, hskip, ih, List.filter_cons, hlive]
    · have hlive : liveValue nowNs (some v) = true := by
        simp only [liveValue, hts]
        simpa using by omega
      simp [collectPeers, hts, hskip, ih, List.filter_cons, hlive]

theorem collectPeers_panic (nowNs : Int) :
    ∀ pairs : List (String × Option String),
      (∃ kv ∈ pairs, ∃ s : String, kv.2 = some s ∧ parseInt64 s = none) →
      collectPeers nowNs pairs = none
  | [], h => by simp at h
  | (peer, none) :: rest, h => by
    obtain ⟨kv, hkv, s, hs, hbad⟩ := h
    rcases List.mem_cons.mp hkv with rfl | hkv
    · simp at hs
    · simpa [collectPeers] using collectPeers_panic nowNs rest ⟨kv, hkv, s, hs, hbad⟩
  | (peer, some v) :: rest, h => by
    obtain ⟨kv, hkv, s, hs, hbad⟩ := h
    rcases List.mem_cons.mp hkv with rfl | hkv
    · obtain rfl : v = s := by simpa using hs
      simp [collectPeers, hbad]
    · have ih := collectPeers_panic nowNs rest ⟨kv, hkv, s, hs, hbad⟩
      rcases hpv : parseInt64 v with _ | ts
      · simp [collectPeers, hpv]
      · by_cases hskip : ts * nsPerSecond < nowNs - heartbeatTimeoutNs <;>
          simp [collectPeers, hpv, hskip, ih]

theorem mem_zip_of_mem_right {α β : Type} :
    ∀ (l₁ : List α) (l₂ : List β) (b : β), l₁.length = l₂.length → b ∈ l₂ →
      ∃ a, (a, b) ∈ l₁.zip l₂
  | [], [], b, _, hb => by simp at hb
  | [], b' :: l₂, b, h, _ => by simp at h
  | a :: l₁, [], b, _, hb => by simp at hb
  | a :: l₁, b' :: l₂, b, h, hb => by
    rcases List.mem_cons.mp hb with rfl | hb'
    · exact ⟨a, by simp⟩
    · obtain ⟨a', ha'⟩ := mem_zip_of_mem_right l₁ l₂ b (by simpa using h) hb'
      exact ⟨a', by simp [ha']⟩

theorem parse_ok_of_zip (keys : List String) (vals : List (Option String))
    (hparse : ∀ s : String, some s ∈ vals → (parseInt64 s).isSome) :
    ∀ kv ∈ keys.zip vals, ∀ s : String, kv.2 = some s → (parseInt64 s).isSome := by
  intro kv hkv s hs
  exact hparse s (hs ▸ (List.of_mem_zip hkv).2)

theorem positionScan_of_not_mem (name : String) :
    ∀ (l : List String) (k : Nat), name ∉ l → positionScan name l k = none
  | [], _, _ => rfl
  | p :: rest, k, h => by
    have hp : ¬p = name := fun hpn => h (by simp [hpn])
    simp only [positionScan, if_neg hp]
    exact positionScan_of_not_mem name rest (k + 1)
      (fun hm => h (List.mem_cons_of_mem _ hm))

theorem positionScan_first (name : String) :
    ∀ (l : List String) (k i : Nat) (h : i < l.length),
      l.get ⟨i, h⟩ = name →
      (∀ j (hj : j < l.length), j < i → l.get ⟨j, hj⟩ ≠ name) →
      positionScan name l k = some (k + i)
  | [], _, i, h, _, _ => absurd h (Nat.not_lt_zero i)
  | p :: rest, k, 0, _, hget, _ => by
    simp only [List.get] at hget
    simp [positionScan, hget]
  | p :: rest, k, i + 1, h, hget, hfirst => by
    have hp : ¬p = name := by
      have := hfirst 0 (Nat.zero_lt_succ _) (Nat.zero_lt_succ _)
      simpa [List.get] using this
    simp only [positionScan, if_neg hp]
    have hrest : positionScan name rest (k + 1) = some ((k + 1) + i) :=
      positionScan_first name rest (k + 1) i (Nat.lt_of_succ_lt_succ h)
        (by simpa [List.get] using hget)
        (by
          intro j hj hji
          have := hfirst (j + 1) (Nat.succ_lt_succ hj) (Nat.succ_lt_succ hji)
          simpa [List.get] using this)
    rw [hrest]
    congr 1
    omega

/-! ## Claim theorems -/

/-- C2: for every SCAN result and corresponding MGET values (of equal length,
as MGET guarantees, and with every present value parseable — otherwise the
code panics, see C9), `Members()` returns exactly the keys whose value is
present and not earlier than `now − heartbeatTimeout`, sorted
lexicographically (sorted, and a permutation of the surviving keys); and on
a SCAN error or an empty SCAN result it returns the empty list. -/
theorem members_filter_sort_spec (keys : List String) (vals : List (Option String))
    (nowNs : Int) (hlen : keys.length = vals.length)
    (hparse : ∀ s : String, some s ∈ vals → (parseInt64 s).isSome) :
    (∃ l, Members (some keys) vals nowNs = some l ∧
      l.Sorted strLeProp ∧ l.Perm (liveKeys nowNs keys vals)) ∧
    Members none vals nowNs = some [] ∧
    Members (some []) vals nowNs = some [] := by
  refine ⟨?_, rfl, rfl⟩
  by_cases hk : keys.length = 0
  · obtain rfl : keys = [] := List.length_eq_zero.mp hk
    exact ⟨[], by simp [Members], List.sorted_nil, by simp [liveKeys]⟩
  · have hcp := collectPeers_eq_live nowNs (keys.zip vals)
      (parse_ok_of_zip keys vals hparse)
    refine ⟨List.insertionSort strLeProp (liveKeys nowNs keys vals), ?_, ?_, ?_⟩
    · simp [Members, hk, hcp, liveKeys]
    · exact List.sorted_insertionSort strLeProp _
    · exact List.perm_insertionSort strLeProp _

/-- C2 witness: a two-key SCAN with live heartbeats, plus the SCAN-error and
empty-SCAN cases. -/
theorem members_filter_sort_spec_witness :
    (∃ l, Members (some ["b", "a"]) [some "0", some "0"] 0 = some l ∧
      l.Sorted strLeProp ∧ l.Perm (liveKeys 0 ["b", "a"] [some "0", some "0"])) ∧
    Members none [some "0", some "0"] 0 = some [] ∧
    Members (some []) [some "0", some "0"] 0 = some [] :=
  members_filter_sort_spec ["b", "a"] [some "0", some "0"] 0 rfl
    (by
      intro s hs
      have : s = "0" := by simpa using hs
      subst this
      decide)

/-- C9: `Members()` panics (modelled as `none`) whenever some present MGET
value fails to parse as a decimal integer; conversely, if every present
value parses, the panic branch is unreachable and `Members()` returns a
list. -/
theorem members_panic_spec (keys : List String) (vals : List (Option String))
    (nowNs : Int) (hlen : keys.length = vals.length) :
    ((∃ s : String, some s ∈ vals ∧ parseInt64 s = none) →
      Members (some keys) vals nowNs = none) ∧
    ((∀ s : String, some s ∈ vals → (parseInt64 s).isSome) →
      ∃ l, Members (some keys) vals nowNs = some l) := by
  constructor
  · rintro ⟨s, hs, hbad⟩
    obtain ⟨k, hk⟩ := mem_zip_of_mem_right keys vals (some s) hlen hs
    have hkeys : keys.length ≠ 0 := by
      rintro h0
      obtain rfl : keys = [] := List.length_eq_zero.mp h0
      simp at hk
    have hcp := collectPeers_panic nowNs (keys.zip vals) ⟨(k, some s), hk, s, rfl, hbad⟩
    simp [Members, hkeys, hcp]
  · intro hparse
    by_cases hk : keys.length = 0
    · obtain rfl : keys = [] := List.length_eq_zero.mp hk
      exact ⟨[], by simp [Members]⟩
    · have hcp := collectPeers_eq_live nowNs (keys.zip vals)
        (parse_ok_of_zip keys vals hparse)
      refine ⟨List.insertionSort strLeProp
        (((keys.zip vals).filter (fun kv => liveValue nowNs kv.2)).map Prod.fst), ?_⟩
      simp [Members, hk, hcp]

/-- C9 witness: a malformed value panics; an all-parseable response returns. -/
theorem members_panic_spec_witness :
    Members (some ["k"]) [some "zz"] 0 = none ∧
    ∃ l, Members (some ["k"]) [some "5"] 0 = some l :=
  ⟨(members_panic_spec ["k"] [some "zz"] 0 rfl).1 ⟨"zz", by simp, by decide⟩,
    (members_panic_spec ["k"] [some "5"] 0 rfl).2
      (by
        intro s hs
        have : s = "5" := by simpa using hs
        subst this
        decide)⟩

/-- C4 counterexample: a SCAN result containing the same key twice (both
live) makes `Members()` return that key twice — the returned list is not
deduplicated, contradicting the claim. -/
theorem members_not_dedup_counterexample :
    Members (some ["am:a", "am:a"]) [some "0", some "0"] 0 = some ["am:a", "am:a"] ∧
    ¬(["am:a", "am:a"] : List String).Nodup := by
  constructor
  · decide
  · decide

/-- C4 amended: for every broker response, the list returned by `Members()`
is lexicographically sorted, but it is not deduplicated — duplicate keys in
the SCAN result (kept by the liveness filter) appear with their
multiplicity. -/
theorem members_sorted_spec (scan : Option (List String)) (vals : List (Option String))
    (nowNs : Int) (l : List String) (h : Members scan vals nowNs = some l) :
    l.Sorted strLeProp := by
  rcases scan with _ | keys
  · obtain rfl : l = [] := by simpa [Members] using h.symm
    exact List.sorted_nil
  · by_cases hk : keys.length = 0
    · obtain rfl : l = [] := by
        have := h.symm
        simpa [Members, hk] using this
      exact List.sorted_nil
    · rcases hcp : collectPeers nowNs (keys.zip vals) with _ | l₀
      · simp [Members, hk, hcp] at h
      · have : l = List.insertionSort strLeProp l₀ := by
          have := h.symm
          simpa [Members, hk, hcp] using this
        subst this
        exact List.sorted_insertionSort strLeProp l₀

/-- C4 amendment witness: sortedness at a concrete unsorted SCAN result. -/
theorem members_sorted_spec_witness :
    Members (some ["b", "a"]) [some "0", some "0"] 0 = some ["a", "b"] ∧
    (["a", "b"] : List String).Sorted strLeProp :=
  ⟨by decide, members_sorted_spec (some ["b", "a"]) [some "0", some "0"] 0 ["a", "b"] (by decide)⟩

/-- C3: `Position()` — on an empty members list with a cache refreshed
within the validity window it returns the cached position without updating
the cache; if the self-name first occurs at index `i` it returns `i` and
updates both the cached position and its refresh time; if the self-name is
absent from a non-empty list, or the list is empty with an expired cache,
it returns `0` without updating the cache. -/
theorem position_spec (name : String) (members : List String) (st : PosState)
    (nowNs : Int) :
    (members = [] → nowNs - positionValidForNs < st.positionFetchedAt →
      Position name members st nowNs = (st.position, st)) ∧
    (∀ i (h : i < members.length), members.get ⟨i, h⟩ = name →
      (∀ j (hj : j < members.length), j < i → members.get ⟨j, hj⟩ ≠ name) →
      Position name members st nowNs = (i, ⟨i, nowNs⟩)) ∧
    (members ≠ [] → name ∉ members → Position name members st nowNs = (0, st)) ∧
    (members = [] → ¬(nowNs - positionValidForNs < st.positionFetchedAt) →
      Position name members st nowNs = (0, st)) := by
  refine ⟨?_, ?_, ?_, ?_⟩
  · rintro rfl hcache
    simp [Position, hcache]
  · intro i h hget hfirst
    have hne : ¬members.length = 0 := by omega
    have hcond : ¬(members.length = 0 ∧
        nowNs - positionValidForNs < st.positionFetchedAt) := fun hc => hne hc.1
    have hscan := positionScan_first name members 0 i h hget hfirst
    simp only [Position, if_neg hcond]
    rw [hscan]
    simp
  · intro hne hmem
    have hlen : ¬members.length = 0 := fun h0 => hne (List.length_eq_zero.mp h0)
    have hcond : ¬(members.length = 0 ∧
        nowNs - positionValidForNs < st.positionFetchedAt) := fun hc => hlen hc.1
    have hscan := positionScan_of_not_mem name members 0 hmem
    simp only [Position, if_neg hcond]
    rw [hscan]
  · rintro rfl hcache
    have hcond : ¬(([] : List String).length = 0 ∧
        nowNs - positionValidForNs < st.positionFetchedAt) := fun hc => hcache hc.2
    have hscan := positionScan_of_not_mem name [] 0 (by simp)
    simp only [Position, if_neg hcond]
    rw [hscan]

/-- C3 witness: all four branches at concrete inputs. -/
theorem position_spec_witness :
    Position "b" [] ⟨5, 100⟩ 50 = (5, ⟨5, 100⟩) ∧
    Position "b" ["a", "b"] ⟨5, 100⟩ 0 = (1, ⟨1, 0⟩) ∧
    Position "b" ["a", "c"] ⟨5, 100⟩ 0 = (0, ⟨5, 100⟩) ∧
    Position "b" [] ⟨5, 100⟩ (200 * 1000000000) = (0, ⟨5, 100⟩) := by
  refine ⟨?_, ?_, ?_, ?_⟩
  · exact (position_spec "b" [] ⟨5, 100⟩ 50).1 rfl (by decide)
  · exact (position_spec "b" ["a", "b"] ⟨5, 100⟩ 0).2.1 1 (by decide) (by decide)
      (by
        intro j hj hj1
        have : j = 0 := by omega
        subst this
        exact (by decide : ("a" : String) ≠ "b"))
  · exact (position_spec "b" ["a", "c"] ⟨5, 100⟩ 0).2.2.1 (by decide) (by decide)
  · exact (position_spec "b" [] ⟨5, 100⟩ (200 * 1000000000)).2.2.2 rfl (by decide)

/-- C5 counterexample: a registry entry whose marshal errored still
produces a part for its key in the full-state envelope — `LocalState()`
logs the error but appends the part anyway, contradicting the claim that
nothing is included for that key. -/
theorem localState_failed_marshal_counterexample :
    localStateParts [("nfl", ⟨[7], false⟩)] = [{ key := "nfl", data := [7] }] ∧
    ({ key := "nfl", data := [7] } : Part) ∈ localStateParts [("nfl", ⟨[7], false⟩)] ∧
    localStateParts [("nfl", ⟨[7], false⟩)] ≠ [] := by
  refine ⟨rfl, ?_, by decide⟩
  simp [localStateParts]

/-- C5 amended: `LocalState()` includes exactly one part per registered
state, in registry order, whether or not its marshal succeeded; a part for
a key whose marshal errored is still present, carrying whatever bytes the
marshal returned. -/
theorem localState_parts_spec (reg : List (String × MarshalRes)) :
    (localStateParts reg).map Part.key = reg.map Prod.fst ∧
    ∀ kv ∈ reg, ({ key := kv.1, data := kv.2.bytes } : Part) ∈ localStateParts reg := by
  constructor
  · simp [localStateParts]
  · intro kv hkv
    exact List.mem_map_of_mem _ hkv

/-- C5 amendment witness: a two-entry registry with one failed marshal. -/
theorem localState_parts_spec_witness :
    (localStateParts [("a", ⟨[1], true⟩), ("b", ⟨[], false⟩)]).map Part.key = ["a", "b"] ∧
    ({ key := "b", data := [] } : Part) ∈
      localStateParts [("a", ⟨[1], true⟩), ("b", ⟨[], false⟩)] :=
  ⟨(localState_parts_spec [("a", ⟨[1], true⟩), ("b", ⟨[], false⟩)]).1,
    (localState_parts_spec [("a", ⟨[1], true⟩), ("b", ⟨[], false⟩)]).2
      ("b", ⟨[], false⟩) (by simp)⟩

theorem processParts_append_of_aborted (lookup : String → Option (List Nat → Bool)) :
    ∀ pre post : List Part, (processParts lookup pre).2 = true →
      processParts lookup (pre ++ post) = processParts lookup pre
  | [], _, h => by simp [processParts] at h
  | part :: pre, post, h => by
    rcases hlk : lookup part.key with _ | mf
    · simp only [processParts, hlk] at h ⊢
      exact processParts_append_of_aborted lookup pre post h
    · by_cases hm : mf part.data
      · simp only [processParts, hlk, hm, if_true, List.append_eq] at h ⊢
        rw [processParts_append_of_aborted lookup pre post h]
      · simp [processParts, hlk, hm]

theorem fullStateReceive_append (lookup : String → Option (List Nat → Bool)) :
    ∀ msgs₁ msgs₂ : List (Option (List Part)),
      fullStateReceive lookup (msgs₁ ++ msgs₂) =
        fullStateReceive lookup msgs₁ ++ fullStateReceive lookup msgs₂
  | [], _ => rfl
  | none :: msgs₁, msgs₂ => by
    simp only [List.cons_append, fullStateReceive, List.append_eq]
    exact fullStateReceive_append lookup msgs₁ msgs₂
  | some parts :: msgs₁, msgs₂ => by
    simp only [List.cons_append, fullStateReceive, List.append_eq]
    rw [fullStateReceive_append lookup msgs₁ msgs₂, List.append_assoc]

/-- C6: in the full-state receive loop, an unknown state key is skipped and
the remaining parts are still processed; the first part whose merge fails
is the last merge attempted — the remaining parts of the same message are
dropped (the abort flag is set); a message prefix that aborted suppresses
any appended parts; and messages are processed independently, so an abort
in one message does not affect subsequent messages. -/
theorem fullState_receive_spec (lookup : String → Option (List Nat → Bool))
    (k : String) (d : List Nat) (rest : List Part) (pre post : List Part)
    (msgs₁ msgs₂ : List (Option (List Part))) :
    (lookup k = none →
      processParts lookup ({ key := k, data := d } :: rest) = processParts lookup rest) ∧
    (∀ f, lookup k = some f → f d = false →
      processParts lookup ({ key := k, data := d } :: rest) = ([(k, d)], true)) ∧
    ((processParts lookup pre).2 = true →
      processParts lookup (pre ++ post) = processParts lookup pre) ∧
    fullStateReceive lookup (msgs₁ ++ msgs₂) =
      fullStateReceive lookup msgs₁ ++ fullStateReceive lookup msgs₂ := by
  refine ⟨?_, ?_, processParts_append_of_aborted lookup pre post,
    fullStateReceive_append lookup msgs₁ msgs₂⟩
  · intro hlk
    simp [processParts, hlk]
  · intro f hlk hf
    simp [processParts, hlk, hf]

/-- C6 witness: a registry knowing keys `a` (merge succeeds) and `bad`
(merge fails); the unknown-key skip, the abort on a failing merge, the
suppression of appended parts, and per-message independence, all at
concrete inputs. -/
theorem fullState_receive_spec_witness :
    (processParts (lookupState [("a", fun _ => true), ("bad", fun _ => false)])
        ({ key := "x", data := [0] } :: [{ key := "a", data := [1] }]) =
      processParts (lookupState [("a", fun _ => true), ("bad", fun _ => false)])
        [{ key := "a", data := [1] }]) ∧
    (processParts (lookupState [("a", fun _ => true), ("bad", fun _ => false)])
        ({ key := "bad", data := [2] } :: [{ key := "a", data := [3] }]) =
      ([("bad", [2])], true)) ∧
    (processParts (lookupState [("a", fun _ => true), ("bad", fun _ => false)])
        ([{ key := "bad", data := [2] }] ++ [{ key := "a", data := [3] }]) =
      processParts (lookupState [("a", fun _ => true), ("bad", fun _ => false)])
        [{ key := "bad", data := [2] }]) ∧
    fullStateReceive (lookupState [("a", fun _ => true), ("bad", fun _ => false)])
        ([some [{ key := "bad", data := [2] }]] ++ [some [{ key := "a", data := [3] }]]) =
      fullStateReceive (lookupState [("a", fun _ => true), ("bad", fun _ => false)])
          [some [{ key := "bad", data := [2] }]] ++
        fullStateReceive (lookupState [("a", fun _ => true), ("bad", fun _ => false)])
          [some [{ key := "a", data := [3] }]] := by
  have h := fullState_receive_spec
    (lookupState [("a", fun _ => true), ("bad", fun _ => false)])
    "x" [0] [{ key := "a", data := [1] }]
    [{ key := "bad", data := [2] }] [{ key := "a", data := [3] }]
    [some [{ key := "bad", data := [2] }]] [some [{ key := "a", data := [3] }]]
  have h2 := fullState_receive_spec
    (lookupState [("a", fun _ => true), ("bad", fun _ => false)])
    "bad" [2] [{ key := "a", data := [3] }]
    [] [] [] []
  exact ⟨h.1 rfl, h2.2.1 (fun _ => false) rfl rfl, h.2.2.1 rfl, h.2.2.2⟩

theorem settleLoop_total :
    ∀ (obs : List Nat) (nPeers nOkay : Nat),
      settleLoop obs nPeers nOkay = [SettleEvent.requestFullState, SettleEvent.closeReady] ∨
      settleLoop obs nPeers nOkay = [SettleEvent.closeReady]
  | [], _, _ => Or.inr rfl
  | n :: rest, nPeers, nOkay => by
    by_cases h3 : 3 ≤ nOkay
    · left
      simp [settleLoop, h3]
    · have := settleLoop_total rest n (if n = nPeers then nOkay + 1 else 0)
      simpa [settleLoop, h3] using this

theorem settleLoop_settled_iff :
    ∀ (obs : List Nat) (nPeers nOkay : Nat),
      settleLoop obs nPeers nOkay = [SettleEvent.requestFullState, SettleEvent.closeReady] ↔
        ∃ i, i < obs.length ∧ 3 ≤ okayAt obs nPeers nOkay i
  | [], nPeers, nOkay => by
    simp [settleLoop]
  | n :: rest, nPeers, nOkay => by
    by_cases h3 : 3 ≤ nOkay
    · simp only [settleLoop, h3, if_true]
      constructor
      · intro _
        exact ⟨0, Nat.succ_pos _, h3⟩
      · intro _
        trivial
    · simp only [settleLoop, h3, if_false]
      rw [settleLoop_settled_iff rest n (if n = nPeers then nOkay + 1 else 0)]
      constructor
      · rintro ⟨i, hi, hok⟩
        exact ⟨i + 1, Nat.succ_lt_succ hi, hok⟩
      · rintro ⟨i, hi, hok⟩
        cases i with
        | zero => exact absurd hok h3
        | succ i => exact ⟨i, Nat.lt_of_succ_lt_succ hi, hok⟩

/-- C7: `Settle` (as a function of the successive member counts it
observes; the list running out models context cancellation) finishes via
the settled path — emitting a full-state request and then closing the
readiness gate — exactly when the consecutive-unchanged counter reaches 3
at some poll; in every other case, and in particular on cancellation, it
closes the readiness gate without emitting a full-state request. -/
theorem settle_spec (obs : List Nat) (nPeers nOkay : Nat) :
    (settleLoop obs nPeers nOkay = [SettleEvent.requestFullState, SettleEvent.closeReady] ↔
      ∃ i, i < obs.length ∧ 3 ≤ okayAt obs nPeers nOkay i) ∧
    (settleLoop obs nPeers nOkay = [SettleEvent.closeReady] ↔
      ¬∃ i, i < obs.length ∧ 3 ≤ okayAt obs nPeers nOkay i) ∧
    settleLoop [] nPeers nOkay = [SettleEvent.closeReady] := by
  refine ⟨settleLoop_settled_iff obs nPeers nOkay, ?_, rfl⟩
  constructor
  · intro hclose hex
    have := (settleLoop_settled_iff obs nPeers nOkay).mpr hex
    rw [hclose] at this
    exact absurd this (by decide)
  · intro hnex
    rcases settleLoop_total obs nPeers nOkay with h | h
    · exact absurd ((settleLoop_settled_iff obs nPeers nOkay).mp h) hnex
    · exact h

/-- C7 witness: three consecutive unchanged observations settle on the next
poll; a changing sequence that runs out (cancellation) only closes the
gate. -/
theorem settle_spec_witness :
    settleLoop [7, 7, 7, 7, 9] 0 0 = [SettleEvent.requestFullState, SettleEvent.closeReady] ∧
    settleLoop [1, 2, 3] 0 0 = [SettleEvent.closeReady] :=
  ⟨(settle_spec [7, 7, 7, 7, 9] 0 0).1.mpr ⟨4, by decide, by decide⟩,
    (settle_spec [1, 2, 3] 0 0).2.1.mpr (by decide)⟩

/-- C8: in the full-state request receive loop, a message carrying the
peer's own name triggers no publish, any other successfully received
message triggers exactly one publish, and over any delivery sequence the
number of publishes equals the number of successfully received foreign
requests. -/
theorem fullStateReq_spec (self payload : String) (msgs : List ReqMsg) :
    fullStateReqReceive self (ReqMsg.msg self :: msgs) = fullStateReqReceive self msgs ∧
    (payload ≠ self →
      fullStateReqReceive self (ReqMsg.msg payload :: msgs) =
        1 + fullStateReqReceive self msgs) ∧
    fullStateReqReceive self msgs = (msgs.filter (isForeignReq self)).length := by
  refine ⟨by simp [fullStateReqReceive], ?_, ?_⟩
  · intro hne
    simp [fullStateReqReceive, hne]
  · induction msgs with
    | nil => rfl
    | cons m rest ih =>
      cases m with
      | recvError => simpa [fullStateReqReceive, isForeignReq, List.filter_cons] using ih
      | msg s =>
        by_cases hs : s = self
        · subst hs
          simpa [fullStateReqReceive, isForeignReq, List.filter_cons] using ih
        · simp [fullStateReqReceive, isForeignReq, List.filter_cons, hs, ih,
            Nat.add_comm]

/-- C8 witness: the peer's own request is ignored, a foreign request
publishes once, and the count over a mixed sequence. -/
theorem fullStateReq_spec_witness :
    fullStateReqReceive "a" (ReqMsg.msg "a" :: [ReqMsg.msg "b"]) =
      fullStateReqReceive "a" [ReqMsg.msg "b"] ∧
    fullStateReqReceive "a" (ReqMsg.msg "b" :: [ReqMsg.msg "a"]) =
      1 + fullStateReqReceive "a" [ReqMsg.msg "a"] ∧
    fullStateReqReceive "a" [ReqMsg.msg "a", ReqMsg.recvError, ReqMsg.msg "b"] =
      ([ReqMsg.msg "a", ReqMsg.recvError, ReqMsg.msg "b"].filter (isForeignReq "a")).length :=
  ⟨(fullStateReq_spec "a" "b" [ReqMsg.msg "b"]).1,
    (fullStateReq_spec "a" "b" [ReqMsg.msg "a"]).2.1 (by decide),
    (fullStateReq_spec "a" "b" [ReqMsg.msg "a", ReqMsg.recvError, ReqMsg.msg "b"]).2.2⟩

/-- C10: in the per-state delta receive loop, every message successfully
delivered by the broker first increments the `update` received-messages and
received-size counters, before the envelope is decoded — in particular they
are incremented when the envelope fails to decode, when the envelope key
matches no registered state, and when the merge errors — while a failed
receive increments nothing. -/
theorem delta_counters_spec (lookup : String → Option (List Nat → Bool)) (len : Nat)
    (dec : Option Part) (k : String) (d : List Nat) :
    (deltaStep lookup (DeltaMsg.msg len dec)).take 2 =
      [DeltaEvent.incReceived update, DeltaEvent.incReceivedSize update len] ∧
    deltaStep lookup (DeltaMsg.msg len none) =
      [DeltaEvent.incReceived update, DeltaEvent.incReceivedSize update len] ∧
    (lookup k = none →
      deltaStep lookup (DeltaMsg.msg len (some { key := k, data := d })) =
        [DeltaEvent.incReceived update, DeltaEvent.incReceivedSize update len]) ∧
    (∀ f, lookup k = some f → f d = false →
      deltaStep lookup (DeltaMsg.msg len (some { key := k, data := d })) =
        [DeltaEvent.incReceived update, DeltaEvent.incReceivedSize update len,
          DeltaEvent.mergeAttempt k d false]) ∧
    deltaStep lookup DeltaMsg.recvError = [] := by
  refine ⟨?_, rfl, ?_, ?_, rfl⟩
  · rcases dec with _ | part
    · rfl
    · rcases hlk : lookup part.key with _ | mf
      · simp [deltaStep, hlk]
      · simp [deltaStep, hlk]
  · intro hlk
    simp [deltaStep, hlk]
  · intro f hlk hf
    simp [deltaStep, hlk, hf]

/-- C10 witness: decode failure, unknown key and failing merge all still
record both counter increments first. -/
theorem delta_counters_spec_witness :
    (deltaStep (lookupState [("nfl", fun _ => false)]) (DeltaMsg.msg 9 none)).take 2 =
      [DeltaEvent.incReceived update, DeltaEvent.incReceivedSize update 9] ∧
    (deltaStep (lookupState [("nfl", fun _ => false)])
        (DeltaMsg.msg 9 (some { key := "other", data := [1] })) =
      [DeltaEvent.incReceived update, DeltaEvent.incReceivedSize update 9]) ∧
    (deltaStep (lookupState [("nfl", fun _ => false)])
        (DeltaMsg.msg 9 (some { key := "nfl", data := [1] })) =
      [DeltaEvent.incReceived update, DeltaEvent.incReceivedSize update 9,
        DeltaEvent.mergeAttempt "nfl" [1] false]) :=
  ⟨(delta_counters_spec (lookupState [("nfl", fun _ => false)]) 9 none "other" [1]).1,
    (delta_counters_spec (lookupState [("nfl", fun _ => false)]) 9 none "other" [1]).2.2.1 rfl,
    (delta_counters_spec (lookupState [("nfl", fun _ => false)]) 9 none "nfl" [1]).2.2.2.1
      (fun _ => false) rfl rfl⟩

/-- C1: the claim fails on the code whenever the key prefix is nonempty.
`AddState(k, state)` stores the state under `k` but binds the returned
channel to `withPrefix(k)`, and `Broadcast` encodes the envelope with
`Key = c.channel`; at prefix `"alertmanager:"` and state key `"nfl"` the
envelope key is `"alertmanager:nfl" ≠ "nfl"`, the receiver's registry
lookup by envelope key misses, and the delta receive loop applies no merge
at all — only the counters are incremented. -/
theorem broadcast_envelope_key_mismatch :
    (broadcastEnvelope (addStateChannel "alertmanager:" "nfl") [1, 2]).key =
      "alertmanager:nfl" ∧
    (broadcastEnvelope (addStateChannel "alertmanager:" "nfl") [1, 2]).key ≠ "nfl" ∧
    lookupState [("nfl", true)]
      (broadcastEnvelope (addStateChannel "alertmanager:" "nfl") [1, 2]).key = none ∧
    deltaStep (lookupState [("nfl", fun _ => true)])
        (DeltaMsg.msg 2 (some (broadcastEnvelope (addStateChannel "alertmanager:" "nfl") [1, 2]))) =
      [DeltaEvent.incReceived update, DeltaEvent.incReceivedSize update 2] ∧
    (broadcastEnvelope (addStateChannel "" "nfl") [1, 2]).key = "nfl" := by
  refine ⟨rfl, by decide, rfl, by decide, rfl⟩

end RedisPeer
